import Mathlib

/-!
Verification of the `ExternalPyomoModel` derivative engine
(`pyomo/contrib/pynumero/interfaces/external_pyomo_model.py`).

The engine eliminates the external variables y from the system
f(x, y) == 0 (residual equations), g(x, y) == 0 (external equations)
and exposes F(x) = f(x, y(x)) with exact first and second derivatives.
We embed the numerical core over exact rational arithmetic: the
Jacobian/Hessian blocks that the PyomoNLP collaborator extracts become
fields of a record, `scipy.sparse.linalg.splu(...).solve(...)` becomes an
exact linear solve, and each engine method is translated line by line.
-/

/-- Model of `sps.linalg.splu(A).solve(B)`: the exact solution of
`A * X = B`, written with the adjugate so that it is executable.  For
invertible `A` this is the unique solution (`splu_solve_sound`,
`splu_solve_unique`); scipy's LU factorization raises on singular input,
so all statements about it carry the hypothesis `A.det ≠ 0`. -/
def splu_solve {n m : ℕ} (A : Matrix (Fin n) (Fin n) ℚ)
    (B : Matrix (Fin n) (Fin m) ℚ) : Matrix (Fin n) (Fin m) ℚ :=
  (A.det)⁻¹ • (A.adjugate * B)

/-- The Jacobian blocks of the current state snapshot, as extracted from
the `PyomoNLP` collaborator in `evaluate_jacobian_equality_constraints`
and `evaluate_hessian_external_variables` (source lines 158-161 and
176-179), together with the per-equation Hessian blocks returned by
`get_hessian_of_constraint` (source lines 183-188).
Rows of a Jacobian block are constraints, columns are variables;
an `hgxy` block has rows indexed by x and columns by y, matching
`extract_submatrix_jacobian(variables, constraints)` and
`extract_submatrix_hessian_lag(wrt1, wrt2)`. -/
structure EModelData (nx ny nf : ℕ) where
  jfx : Matrix (Fin nf) (Fin nx) ℚ
  jfy : Matrix (Fin nf) (Fin ny) ℚ
  jgx : Matrix (Fin ny) (Fin nx) ℚ
  jgy : Matrix (Fin ny) (Fin ny) ℚ
  hfxx : Fin nf → Matrix (Fin nx) (Fin nx) ℚ
  hfxy : Fin nf → Matrix (Fin nx) (Fin ny) ℚ
  hfyy : Fin nf → Matrix (Fin ny) (Fin ny) ℚ
  hgxx : Fin ny → Matrix (Fin nx) (Fin nx) ℚ
  hgxy : Fin ny → Matrix (Fin nx) (Fin ny) ℚ
  hgyy : Fin ny → Matrix (Fin ny) (Fin ny) ℚ

/-- Source lines 152-168:
`dydx = -1 * sps.linalg.splu(jgy.tocsc()).solve(jgx.toarray())`
followed by `return (jfx + jfy.dot(dydx))`. -/
def evaluate_jacobian_equality_constraints {nx ny nf : ℕ}
    (d : EModelData nx ny nf) : Matrix (Fin nf) (Fin nx) ℚ :=
  let dydx := (-1 : ℚ) • splu_solve d.jgy d.jgx
  d.jfx + d.jfy * dydx

/-- Source lines 170-210 (`evaluate_hessian_external_variables`).
The three `numpy` products at lines 192-204 only have matching shapes
when `nx = ny` (`hgxy` is nx-by-ny while `dydx.T` is nx-by-ny, so
`hessian.dot(np.transpose(dydx))` requires ny = nx); the translation is
therefore stated for a model with `nx = ny = n`, the only dimensions on
which the source runs without a shape error.  Note that at line 207 the
source calls `sps.linalg.splu(jgy_csc)` anew inside the comprehension,
once per right-hand side; the plain translation keeps only the values,
and `evaluate_hessian_external_variables_counted` below keeps the call
count as well. -/
def evaluate_hessian_external_variables {n nf : ℕ}
    (d : EModelData n n nf) : List (Matrix (Fin n) (Fin n) ℚ) :=
  let dydx := (-1 : ℚ) • splu_solve d.jgy d.jgx
  let _hfxx := List.ofFn d.hfxx
  let _hfxy := List.ofFn d.hfxy
  let _hfyy := List.ofFn d.hfyy
  let term1 := List.ofFn d.hgxx
  let term2 := List.ofFn fun k => (2 : ℚ) • (d.hgxy k * dydx.transpose)
  let term3 := List.ofFn fun k =>
    (d.hgyy k * dydx.transpose).transpose * dydx.transpose
  let sum_ := (term1.zipWith (· + ·) term2).zipWith (· + ·) term3
  sum_.map fun t => (-1 : ℚ) • splu_solve d.jgy t

/-- Source lines 212-222: the method's body is the docstring and the
single statement `d2ydx2 = self.evaluate_hessian_external_variables()`;
the function then falls off its end, so in Python it returns `None`
(modelled as `none`).  The source's own TODO at lines 208-209 records
that the `d2fdx2` assembly was still to be written. -/
def evaluate_hessian_equality_constraints {n nf : ℕ}
    (d : EModelData n n nf) : Option (List (Matrix (Fin n) (Fin n) ℚ)) :=
  let _d2ydx2 := evaluate_hessian_external_variables d
  none

/-- Instrumented model of one `sps.linalg.splu(A)` call followed by
`.solve(B)`: the second component counts the factorization. -/
def splu_solve_counted {n m : ℕ} (A : Matrix (Fin n) (Fin n) ℚ)
    (B : Matrix (Fin n) (Fin m) ℚ) : Matrix (Fin n) (Fin m) ℚ × ℕ :=
  (splu_solve A B, 1)

/-- `evaluate_jacobian_equality_constraints` with the number of
`splu` factorizations it performs: exactly the one at source line 167. -/
def evaluate_jacobian_equality_constraints_counted {nx ny nf : ℕ}
    (d : EModelData nx ny nf) : Matrix (Fin nf) (Fin nx) ℚ × ℕ :=
  let p := splu_solve_counted d.jgy d.jgx
  let dydx := (-1 : ℚ) • p.1
  (d.jfx + d.jfy * dydx, p.2)

/-- `evaluate_hessian_external_variables` with the number of `splu`
factorizations it performs: one at source line 181 for `dydx`, and one
per element of `sum_` at source line 207, where `splu(jgy_csc)` sits
inside the list comprehension. -/
def evaluate_hessian_external_variables_counted {n nf : ℕ}
    (d : EModelData n n nf) : List (Matrix (Fin n) (Fin n) ℚ) × ℕ :=
  let p := splu_solve_counted d.jgy d.jgx
  let dydx := (-1 : ℚ) • p.1
  let term1 := List.ofFn d.hgxx
  let term2 := List.ofFn fun k => (2 : ℚ) • (d.hgxy k * dydx.transpose)
  let term3 := List.ofFn fun k =>
    (d.hgyy k * dydx.transpose).transpose * dydx.transpose
  let sum_ := (term1.zipWith (· + ·) term2).zipWith (· + ·) term3
  let solves := sum_.map fun t => splu_solve_counted d.jgy t
  (solves.map fun q => (-1 : ℚ) • q.1, p.2 + (solves.map fun q => q.2).sum)

/-- `evaluate_hessian_equality_constraints` with its factorization
count: all of its factorizations happen inside the call to
`evaluate_hessian_external_variables` at source line 223. -/
def evaluate_hessian_equality_constraints_counted {n nf : ℕ}
    (d : EModelData n n nf) :
    Option (List (Matrix (Fin n) (Fin n) ℚ)) × ℕ :=
  let p := evaluate_hessian_external_variables_counted d
  (none, p.2)

/-- A Pyomo variable occurrence: its identity and whether it is fixed. -/
structure PyoVarDecl where
  id : ℕ
  fixed : Bool
deriving DecidableEq

/-- A Pyomo scalar equality constraint, reduced to what the engine
observes of it: the variables appearing in its expression (in
`identify_variables` order), its residual as a function of the current
variable values, and its second-derivative function (the Hessian entry
for a pair of variable ids at the current point). -/
structure PyoCon where
  vars : List PyoVarDecl
  body : (ℕ → ℚ) → ℚ
  hess : ℕ → ℕ → ℚ

/-- Modelled from the spec: `pyomo.core.expr.visitor.identify_variables`
is outside `src/`; per its use at source line 31 it yields the variables
appearing in the expression, excluding fixed ones when
`include_fixed=False`. -/
def identify_variables (c : PyoCon) (include_fixed : Bool) : List PyoVarDecl :=
  if include_fixed then c.vars else c.vars.filter fun v => !v.fixed

/-- Modelled from the spec: `PyomoNLP.extract_submatrix_hessian_lag` is
outside `src/`; per section 2 (Submatrix Extractor) it returns the
Hessian of the Lagrangian — the multiplier-weighted sum of the
constraints' Hessians — restricted to the requested variable pair, a
`wrt1.length` by `wrt2.length` block. -/
def extract_submatrix_hessian_lag (duals : List ℚ) (cons : List PyoCon)
    (wrt1 wrt2 : List PyoVarDecl) :
    Matrix (Fin wrt1.length) (Fin wrt2.length) ℚ :=
  Matrix.of fun i j =>
    ((duals.zip cons).map fun p =>
      p.1 * p.2.hess (wrt1.get i).id (wrt2.get j).id).sum

/-- The `(wrt1, wrt2)` pair actually used by
`get_hessian_of_constraint` after its argument-defaulting branches
(source lines 30-42): both default to the unfixed variables of the
constraint when absent, and a single given list is used for both. -/
def resolve_wrt (c : PyoCon) :
    Option (List PyoVarDecl) → Option (List PyoVarDecl) →
    List PyoVarDecl × List PyoVarDecl
  | none, none =>
      let v := identify_variables c false
      (v, v)
  | some w1, some w2 => (w1, w2)
  | some w1, none => (w1, w1)
  | none, some w2 => (w2, w2)

/-- The local `variables` list of the same branches, used to build the
dummy constraint of the private block. -/
def block_variables (c : PyoCon) :
    Option (List PyoVarDecl) → Option (List PyoVarDecl) → List PyoVarDecl
  | none, none => identify_variables c false
  | some w1, some w2 => w1 ++ w2
  | some w1, none => w1
  | none, some w2 => w2

/-- Source lines 28-67.  The private block holds the target constraint
and the dummy constraint `sum(variables) == block._dummy_var`; the dummy
is linear, so its second derivatives are identically zero.  The NLP may
order the two constraints either way (`realFirst`); `duals` is the
source's `[0.0, 0.0]` with entry `idx` (the index of the real
constraint) set to `1.0`. -/
def get_hessian_of_constraint (c : PyoCon)
    (wrt1 wrt2 : Option (List PyoVarDecl)) (realFirst : Bool)
    (dummyId : ℕ) :
    Matrix (Fin (resolve_wrt c wrt1 wrt2).1.length)
      (Fin (resolve_wrt c wrt1 wrt2).2.length) ℚ :=
  let vs := block_variables c wrt1 wrt2
  let dummy : PyoCon :=
    { vars := vs ++ [{ id := dummyId, fixed := false }]
      body := fun s => (vs.map fun v => s v.id).sum - s dummyId
      hess := fun _ _ => 0 }
  let cons := if realFirst then [c, dummy] else [dummy, c]
  let idx := if realFirst then 0 else 1
  let duals := List.set [0, 0] idx (1 : ℚ)
  extract_submatrix_hessian_lag duals cons
    (resolve_wrt c wrt1 wrt2).1 (resolve_wrt c wrt1 wrt2).2

/-- The Python exceptions that the object-level methods can surface. -/
inductive PyErr where
  | notImplementedError
  | assertionError
  | solverError
deriving DecidableEq

/-- The `ExternalPyomoModel` instance state.  `residual_equations`
models the attribute of that name: `__init__` (source lines 89-109)
assigns `residual_cons`, never `residual_equations`, so the attribute is
absent (`none`) and reading it raises `AttributeError`.  `nlpValues` is
the variable-value snapshot captured by the `PyomoNLP` the instance
currently holds in `self._nlp`. -/
structure ExternalPyomoModel where
  input_vars : List ℕ
  external_vars : List ℕ
  residual_cons : List PyoCon
  external_cons : List PyoCon
  residual_equations : Option (List PyoCon)
  nlpValues : ℕ → ℚ

/-- Source lines 89-109: build the block and its NLP from the current
variable values `σ` (line 102), check `assert len(external_vars) ==
len(external_cons)` (line 104, `none` on failure), and store the four
component lists.  `residual_equations` is never assigned. -/
def ExternalPyomoModel.init (input_vars external_vars : List ℕ)
    (residual_cons external_cons : List PyoCon) (σ : ℕ → ℚ) :
    Option ExternalPyomoModel :=
  if external_vars.length = external_cons.length then
    some { input_vars := input_vars
           external_vars := external_vars
           residual_cons := residual_cons
           external_cons := external_cons
           residual_equations := none
           nlpValues := σ }
  else none

/-- Source lines 111-112. -/
def ExternalPyomoModel.n_inputs (m : ExternalPyomoModel) : ℕ :=
  m.input_vars.length

/-- Source lines 114-115: `return len(self.residual_equations)`.  The
attribute read is partial: `none` models the `AttributeError` raised
because `__init__` only ever assigns `residual_cons`. -/
def ExternalPyomoModel.n_equality_constraints (m : ExternalPyomoModel) :
    Option ℕ :=
  m.residual_equations.map List.length

/-- Source lines 128-129: `for var, val in zip(input_vars, input_values):
var.set_value(val)` — positional assignment over the `zip`, which stops
at the shorter of the two sequences. -/
def assign_zip (vars : List ℕ) (vals : List ℚ) (σ : ℕ → ℚ) : ℕ → ℚ :=
  (vars.zip vals).foldl (fun s p => Function.update s p.1 p.2) σ

/-- Modelled from the spec: `create_subsystem_block` (outside `src/`)
collects as the block's `input_vars` the unfixed variables that appear
in the given constraints but are not among the given variables; source
line 134 compares their number with `len(input_vars)`. -/
def temp_block_input_vars (m : ExternalPyomoModel) : List ℕ :=
  ((m.external_cons.map fun c =>
      (identify_variables c false).map PyoVarDecl.id).flatten).dedup.filter
    fun i => ¬ m.external_vars.contains i

/-- Modelled from the spec: the inner nonlinear solver
(`SolverFactory("ipopt").solve`, outside `src/`) solves the external
equations for the external variables with the inputs held fixed, and
"fails explicitly on non-convergence" (section 6); on success it returns
the updated variable values. -/
structure InnerSolver where
  solve : List PyoCon → List ℕ → (ℕ → ℚ) → Except PyErr (ℕ → ℚ)

/-- Source lines 123-144.  `σ` is the ambient variable valuation; the
result is (raised exception if any, the instance, the valuation after
the call).  The zip-assignment always runs first; the line-134 assert is
checked; the solve runs with inputs fixed; only on success is
`self._nlp` rebuilt from the current values (line 144).  When the solve
raises, the exception propagates with the inputs already mutated and the
old `_nlp` still in place. -/
def ExternalPyomoModel.set_input_values (solver : InnerSolver)
    (m : ExternalPyomoModel) (σ : ℕ → ℚ) (input_values : List ℚ) :
    Option PyErr × ExternalPyomoModel × (ℕ → ℚ) :=
  let σ1 := assign_zip m.input_vars input_values σ
  if (temp_block_input_vars m).length = m.input_vars.length then
    match solver.solve m.external_cons m.external_vars σ1 with
    | Except.error e => (some e, m, σ1)
    | Except.ok σ2 => (none, { m with nlpValues := σ2 }, σ2)
  else
    (some PyErr.assertionError, m, σ1)

/-- Source lines 146-147: `raise NotImplementedError()`. -/
def ExternalPyomoModel.set_equality_constraint_multipliers
    (_m : ExternalPyomoModel) (_eq_con_multipliers : List ℚ) :
    Except PyErr Unit :=
  Except.error PyErr.notImplementedError

/-- Source lines 149-150:
`return self._nlp.extract_subvector_constraints(self.residual_cons)` —
the residual bodies evaluated at the values held by the current
`self._nlp` snapshot. -/
def ExternalPyomoModel.evaluate_equality_constraints
    (m : ExternalPyomoModel) : List ℚ :=
  m.residual_cons.map fun c => c.body m.nlpValues

/-- The right-hand side matrix assembled for external equation `k` at
source line 206 (`sum_ = [t1 + t2 + t3 ...]`), with `dydx` as the source
computes it at line 181. -/
def hessian_sum_term {n nf : ℕ} (d : EModelData n n nf) (k : Fin n) :
    Matrix (Fin n) (Fin n) ℚ :=
  let dydx := (-1 : ℚ) • splu_solve d.jgy d.jgx
  d.hgxx k + (2 : ℚ) • (d.hgxy k * dydx.transpose) +
    (d.hgyy k * dydx.transpose).transpose * dydx.transpose

/-- Variable values for the spec section 8 scenario: the input x is
variable 0 with value 2, the external y is variable 1 with value 2
(the solution of g at x = 2); every other id is unused. -/
def sigma0 : ℕ → ℚ := fun i => if i = 0 then 2 else if i = 1 then 2 else 0

/-- The scenario residual equation f: `x*y - 1 == 0` (variables 0, 1,
both unfixed); its Hessian has the single mixed entry 1. -/
def fcon : PyoCon :=
  { vars := [{ id := 0, fixed := false }, { id := 1, fixed := false }]
    body := fun s => s 0 * s 1 - 1
    hess := fun a b => if (a = 0 ∧ b = 1) ∨ (a = 1 ∧ b = 0) then 1 else 0 }

/-- The scenario external equation g: `y - x == 0` (linear, Hessian
zero). -/
def gcon : PyoCon :=
  { vars := [{ id := 0, fixed := false }, { id := 1, fixed := false }]
    body := fun s => s 1 - s 0
    hess := fun _ _ => 0 }

/-- The scenario instance as `__init__` leaves it (before any
`set_input_values` call), with the `PyomoNLP` snapshot taken at the
construction-time values `sigma0`. -/
def epm0 : ExternalPyomoModel :=
  { input_vars := [0]
    external_vars := [1]
    residual_cons := [fcon]
    external_cons := [gcon]
    residual_equations := none
    nlpValues := sigma0 }

/-- The derivative blocks of the section 8 scenario at (x, y) = (2, 2):
jfx = [[y]] = [[2]], jfy = [[x]] = [[2]], jgx = [[-1]], jgy = [[1]];
f's only curvature is the mixed second derivative 1. -/
def scenarioData : EModelData 1 1 1 :=
  { jfx := !![2]
    jfy := !![2]
    jgx := !![-1]
    jgy := !![1]
    hfxx := fun _ => 0
    hfxy := fun _ => !![1]
    hfyy := fun _ => 0
    hgxx := fun _ => 0
    hgxy := fun _ => 0
    hgyy := fun _ => 0 }

/-- Derivative blocks for the nonlinear external system g: `y - x^2 == 0`
at x = 2: jgx = [[-4]], jgy = [[1]], hgxx = [[-2]] (of g, so d2y/dx2
solves 1*z = 2); the residual blocks are irrelevant here. -/
def hessScenarioData : EModelData 1 1 1 :=
  { jfx := 0
    jfy := 0
    jgx := !![-4]
    jgy := !![1]
    hfxx := fun _ => 0
    hfxy := fun _ => 0
    hfyy := fun _ => 0
    hgxx := fun _ => !![-2]
    hgxy := fun _ => 0
    hgyy := fun _ => 0 }

/-- An inner solver that always reports non-convergence. -/
def failSolver : InnerSolver :=
  { solve := fun _ _ _ => Except.error PyErr.solverError }

/-- An inner solver that always converges, leaving the values as they
are. -/
def okSolver : InnerSolver :=
  { solve := fun _ _ s => Except.ok s }

/-- An external equation over variables 0, 5 (inputs) and 1 (external):
`y - x0 - x5 == 0`; it makes the line-134 assert hold for an instance
with two inputs. -/
def gcon2 : PyoCon :=
  { vars := [{ id := 0, fixed := false }, { id := 5, fixed := false },
             { id := 1, fixed := false }]
    body := fun s => s 1 - s 0 - s 5
    hess := fun _ _ => 0 }

/-- An instance with two input variables (ids 0 and 5), used to exercise
`set_input_values` with a values list shorter or longer than
`n_inputs()`. -/
def m10 : ExternalPyomoModel :=
  { input_vars := [0, 5]
    external_vars := [1]
    residual_cons := [fcon]
    external_cons := [gcon2]
    residual_equations := none
    nlpValues := sigma0 }

theorem splu_solve_sound {n m : ℕ} (A : Matrix (Fin n) (Fin n) ℚ)
    (B : Matrix (Fin n) (Fin m) ℚ) (h : A.det ≠ 0) :
    A * splu_solve A B = B := by
  unfold splu_solve
  rw [Matrix.mul_smul, ← Matrix.mul_assoc, Matrix.mul_adjugate,
    Matrix.smul_mul, Matrix.one_mul, smul_smul, inv_mul_cancel₀ h, one_smul]

theorem splu_solve_unique {n m : ℕ} (A : Matrix (Fin n) (Fin n) ℚ)
    (B : Matrix (Fin n) (Fin m) ℚ) (X : Matrix (Fin n) (Fin m) ℚ)
    (h : A.det ≠ 0) (hX : A * X = B) : splu_solve A B = X := by
  have hinv : Invertible A := A.invertibleOfIsUnitDet (isUnit_iff_ne_zero.mpr h)
  have h1 : A * splu_solve A B = A * X := by
    rw [splu_solve_sound A B h, hX]
  calc splu_solve A B = (⅟A * A) * splu_solve A B := by
        rw [invOf_mul_self, Matrix.one_mul]
    _ = ⅟A * (A * splu_solve A B) := by rw [Matrix.mul_assoc]
    _ = ⅟A * (A * X) := by rw [h1]
    _ = (⅟A * A) * X := by rw [Matrix.mul_assoc]
    _ = X := by rw [invOf_mul_self, Matrix.one_mul]

theorem list_zipWith_ofFn {α β γ : Type} {n : ℕ} (f : Fin n → α)
    (g : Fin n → β) (h : α → β → γ) :
    List.zipWith h (List.ofFn f) (List.ofFn g) =
      List.ofFn fun i => h (f i) (g i) := by
  apply List.ext_getElem
  · simp
  · intro i h1 h2
    simp [List.getElem_zipWith, List.getElem_ofFn]

theorem map_pair_count {α β : Type} (l : List α) (f : α → β) :
    ((l.map fun t => (f t, (1 : ℕ))).map fun q => q.2).sum = l.length := by
  rw [List.map_map]
  show (l.map fun _ => (1 : ℕ)).sum = l.length
  simp [List.map_const', List.sum_replicate]

theorem code_dydx_eq {nx ny nf : ℕ} (d : EModelData nx ny nf)
    (hdet : d.jgy.det ≠ 0) (D : Matrix (Fin ny) (Fin nx) ℚ)
    (hD : d.jgx + d.jgy * D = 0) :
    (-1 : ℚ) • splu_solve d.jgy d.jgx = D := by
  have h1 : d.jgy * (-D) = d.jgx := by
    rw [Matrix.mul_neg, ← eq_neg_of_add_eq_zero_left hD]
  rw [splu_solve_unique d.jgy d.jgx (-D) hdet h1, neg_one_smul, neg_neg]

theorem ehev_eq_ofFn {n nf : ℕ} (d : EModelData n n nf) :
    evaluate_hessian_external_variables d =
      List.ofFn fun k => (-1 : ℚ) • splu_solve d.jgy (hessian_sum_term d k) := by
  simp only [evaluate_hessian_external_variables]
  rw [list_zipWith_ofFn, list_zipWith_ofFn, List.map_ofFn]
  rfl

theorem jac_counted_snd {nx ny nf : ℕ} (d : EModelData nx ny nf) :
    (evaluate_jacobian_equality_constraints_counted d).2 = 1 := rfl

theorem ehev_counted_snd {n nf : ℕ} (d : EModelData n n nf) :
    (evaluate_hessian_equality_constraints_counted d).2 = 1 + n := by
  show (evaluate_hessian_external_variables_counted d).2 = 1 + n
  simp only [evaluate_hessian_external_variables_counted, splu_solve_counted]
  rw [map_pair_count]
  simp [List.length_zipWith, List.length_ofFn]

theorem assign_zip_not_mem (vars : List ℕ) (vals : List ℚ) (σ : ℕ → ℚ)
    (v : ℕ) (hv : v ∉ vars) : assign_zip vars vals σ v = σ v := by
  induction vars generalizing vals σ with
  | nil => rfl
  | cons a t ih =>
    cases vals with
    | nil => rfl
    | cons b bs =>
      have hva : v ≠ a := fun h => hv (h ▸ List.mem_cons_self a t)
      have hvt : v ∉ t := fun h => hv (List.mem_cons_of_mem a h)
      show assign_zip t bs (Function.update σ a b) v = σ v
      rw [ih bs _ hvt, Function.update_noteq hva]

theorem assign_zip_get (vars : List ℕ) (vals : List ℚ) (σ : ℕ → ℚ)
    (hnd : vars.Nodup) (i : ℕ) (h1 : i < vals.length)
    (h2 : i < vars.length) :
    assign_zip vars vals σ (vars.get ⟨i, h2⟩) = vals.get ⟨i, h1⟩ := by
  induction vars generalizing vals σ i with
  | nil => exact absurd h2 (Nat.not_lt_zero i)
  | cons a t ih =>
    cases vals with
    | nil => exact absurd h1 (Nat.not_lt_zero i)
    | cons b bs =>
      cases i with
      | zero =>
        show assign_zip t bs (Function.update σ a b) a = b
        rw [assign_zip_not_mem t bs _ a (List.nodup_cons.mp hnd).1,
          Function.update_same]
      | succ j =>
        exact ih bs (Function.update σ a b) (List.nodup_cons.mp hnd).2 j
          (Nat.lt_of_succ_lt_succ h1) (Nat.lt_of_succ_lt_succ h2)

theorem assign_zip_untouched (vars : List ℕ) (vals : List ℚ) (σ : ℕ → ℚ)
    (hnd : vars.Nodup) (i : ℕ) (h2 : i < vars.length)
    (h1 : vals.length ≤ i) :
    assign_zip vars vals σ (vars.get ⟨i, h2⟩) = σ (vars.get ⟨i, h2⟩) := by
  induction vars generalizing vals σ i with
  | nil => exact absurd h2 (Nat.not_lt_zero i)
  | cons a t ih =>
    cases vals with
    | nil => rfl
    | cons b bs =>
      cases i with
      | zero => exact absurd h1 (Nat.not_succ_le_zero _)
      | succ j =>
        have hj2 : j < t.length := Nat.lt_of_succ_lt_succ h2
        have hne : t.get ⟨j, hj2⟩ ≠ a :=
          fun h => (List.nodup_cons.mp hnd).1 (h ▸ t.get_mem _ _)
        calc assign_zip (a :: t) (b :: bs) σ ((a :: t).get ⟨j + 1, h2⟩)
            = assign_zip t bs (Function.update σ a b) (t.get ⟨j, hj2⟩) := rfl
          _ = Function.update σ a b (t.get ⟨j, hj2⟩) :=
              ih bs _ (List.nodup_cons.mp hnd).2 j hj2 (Nat.le_of_succ_le_succ h1)
          _ = σ (t.get ⟨j, hj2⟩) := Function.update_noteq hne _ _
          _ = σ ((a :: t).get ⟨j + 1, h2⟩) := rfl

theorem assign_zip_take (vars : List ℕ) (vals : List ℚ) (σ : ℕ → ℚ) :
    assign_zip vars vals σ = assign_zip vars (vals.take vars.length) σ := by
  induction vars generalizing vals σ with
  | nil => rfl
  | cons a t ih =>
    cases vals with
    | nil => rfl
    | cons b bs =>
      show assign_zip t bs (Function.update σ a b) =
        assign_zip t (bs.take t.length) (Function.update σ a b)
      exact ih bs _

/-- C1: the spec claims `evaluate_hessian_equality_constraints` returns
a sequence of n_f square n_x-by-n_x residual Hessians.  The source
method (lines 212-222) only computes `d2ydx2` and then ends, so Python
returns `None`: the residual Hessians are never assembled or returned,
on every instance. -/
theorem evaluate_hessian_equality_constraints_returns_none {n nf : ℕ}
    (d : EModelData n n nf) :
    evaluate_hessian_equality_constraints d = none := rfl

/-- C2 (counterexample): on the section 8 scenario data (n_y = 1), one
Jacobian evaluation followed by one Hessian evaluation performs 3 sparse
LU factorizations of jgy, not exactly 1. -/
theorem splu_factorization_count_counterexample :
    ¬ ((evaluate_jacobian_equality_constraints_counted scenarioData).2 +
        (evaluate_hessian_equality_constraints_counted scenarioData).2 = 1) := by
  rw [jac_counted_snd, ehev_counted_snd]
  omega

/-- C2 (amended): one full Jacobian-plus-Hessian evaluation computes the
sparse LU factorization of jgy exactly 2 + n_y times — once in
`evaluate_jacobian_equality_constraints` (line 167), once for dy/dx
(line 181), and once per external equation inside the d2ydx2
comprehension (line 207), where the factorization is recomputed per
right-hand side.  The count is independent of n_x and n_f. -/
theorem splu_factorization_count {n nf : ℕ} (d : EModelData n n nf) :
    (evaluate_jacobian_equality_constraints_counted d).2 +
      (evaluate_hessian_equality_constraints_counted d).2 = n + 2 := by
  rw [jac_counted_snd, ehev_counted_snd]
  omega

/-- C3: `evaluate_jacobian_equality_constraints` returns
`jfx + jfy.dot(dydx)` where `dydx` is the solution of the linear system
`jgx + jgy * dydx = 0` (that is, `dydx = -(jgy^-1) * jgx`), obtained
through the LU solve without forming an inverse; the result has shape
(n_f, n_x) by its type. -/
theorem evaluate_jacobian_equality_constraints_correct {nx ny nf : ℕ}
    (d : EModelData nx ny nf) (hdet : d.jgy.det ≠ 0)
    (D : Matrix (Fin ny) (Fin nx) ℚ) (hD : d.jgx + d.jgy * D = 0) :
    evaluate_jacobian_equality_constraints d = d.jfx + d.jfy * D := by
  have h : evaluate_jacobian_equality_constraints d =
      d.jfx + d.jfy * ((-1 : ℚ) • splu_solve d.jgy d.jgx) := rfl
  rw [h, code_dydx_eq d hdet D hD]

/-- C3 witness: on the section 8 scenario (f: x*y - 1, g: y - x at
x = 2), dy/dx = 1 and the Jacobian evaluates to [[4]] = [[2x]]. -/
theorem evaluate_jacobian_equality_constraints_correct_witness :
    scenarioData.jgy.det ≠ 0
    ∧ scenarioData.jgx + scenarioData.jgy * !![(1 : ℚ)] = 0
    ∧ evaluate_jacobian_equality_constraints scenarioData = !![(4 : ℚ)] := by
  have h1 : scenarioData.jgy.det ≠ 0 := by
    simp [scenarioData, Matrix.det_fin_one]
  have h2 : scenarioData.jgx + scenarioData.jgy * !![(1 : ℚ)] = 0 := by
    ext i j
    fin_cases i
    fin_cases j
    simp [scenarioData, Matrix.mul_apply]
  refine ⟨h1, h2, ?_⟩
  rw [evaluate_jacobian_equality_constraints_correct scenarioData h1
    !![(1 : ℚ)] h2]
  ext i j
  fin_cases i
  fin_cases j
  simp [scenarioData, Matrix.mul_apply]
  norm_num

/-- C5: the spec claims `n_equality_constraints()` returns n_f.  The
source (line 115) reads `self.residual_equations`, an attribute
`__init__` never assigns (it assigns `residual_cons`), so the call
raises `AttributeError` (modelled `none`) on a freshly constructed
scenario instance instead of returning 1. -/
theorem n_equality_constraints_attribute_error :
    (ExternalPyomoModel.init [0] [1] [fcon] [gcon] sigma0).map
      ExternalPyomoModel.n_equality_constraints = some none := rfl

/-- C9: `set_equality_constraint_multipliers` raises
`NotImplementedError` for every instance and every argument; it never
returns normally. -/
theorem set_equality_constraint_multipliers_raises
    (m : ExternalPyomoModel) (mult : List ℚ) :
    ExternalPyomoModel.set_equality_constraint_multipliers m mult =
      Except.error PyErr.notImplementedError := rfl

/-- C4: for every external-equation component k, the matrix produced by
the second-order propagation solves
`jgy * (d2ydx2)_k = -((hgxx)_k + 2*(hgxy)_k*(dy/dx)^T + (dy/dx)*(hgyy)_k*(dy/dx)^T)`
where dy/dx is the solution of `jgx + jgy * D = 0`; each matrix is
n_x-by-n_x (its type) and the list has n_y elements.  `hsym` records
that the (y, y) Hessian block of an equation is symmetric, as a true
second-derivative block with `wrt1 = wrt2` is. -/
theorem evaluate_hessian_external_variables_correct {n nf : ℕ}
    (d : EModelData n n nf) (hdet : d.jgy.det ≠ 0)
    (hsym : ∀ k, (d.hgyy k).transpose = d.hgyy k)
    (D : Matrix (Fin n) (Fin n) ℚ) (hD : d.jgx + d.jgy * D = 0) :
    (evaluate_hessian_external_variables d).length = n
    ∧ ∀ k : Fin n,
        d.jgy * (evaluate_hessian_external_variables d).getD k.val 0 =
          -(d.hgxx k + (2 : ℚ) • (d.hgxy k * D.transpose) +
            D * d.hgyy k * D.transpose) := by
  have hofn := ehev_eq_ofFn d
  constructor
  · rw [hofn, List.length_ofFn]
  · intro k
    have hk : k.val < (evaluate_hessian_external_variables d).length := by
      rw [hofn, List.length_ofFn]
      exact k.isLt
    have hel : (evaluate_hessian_external_variables d).getD k.val 0 =
        (-1 : ℚ) • splu_solve d.jgy (hessian_sum_term d k) := by
      rw [List.getD_eq_getElem _ _ hk]
      simp only [hofn, List.getElem_ofFn, Fin.eta]
    rw [hel, Matrix.mul_smul, splu_solve_sound _ _ hdet, neg_one_smul]
    have hsum : hessian_sum_term d k =
        d.hgxx k + (2 : ℚ) • (d.hgxy k * D.transpose) +
          D * d.hgyy k * D.transpose := by
      simp only [hessian_sum_term]
      rw [code_dydx_eq d hdet D hD, Matrix.transpose_mul,
        Matrix.transpose_transpose, hsym k]
    rw [hsum]

/-- C4 witness: for g: y - x^2 = 0 at x = 2 (jgx = [[-4]], jgy = [[1]],
hgxx = [[-2]]), dy/dx = 4 and the single d2ydx2 matrix solves
1 * z = [[2]], the true second derivative of y = x^2. -/
theorem evaluate_hessian_external_variables_correct_witness :
    hessScenarioData.jgy.det ≠ 0
    ∧ (∀ k, (hessScenarioData.hgyy k).transpose = hessScenarioData.hgyy k)
    ∧ hessScenarioData.jgx + hessScenarioData.jgy * !![(4 : ℚ)] = 0
    ∧ (evaluate_hessian_external_variables hessScenarioData).length = 1
    ∧ hessScenarioData.jgy *
        (evaluate_hessian_external_variables hessScenarioData).getD 0 0 =
        !![(2 : ℚ)] := by
  have h1 : hessScenarioData.jgy.det ≠ 0 := by
    simp [hessScenarioData, Matrix.det_fin_one]
  have hsym : ∀ k, (hessScenarioData.hgyy k).transpose =
      hessScenarioData.hgyy k := by
    intro k
    simp [hessScenarioData]
  have h2 : hessScenarioData.jgx + hessScenarioData.jgy * !![(4 : ℚ)] = 0 := by
    ext i j
    fin_cases i
    fin_cases j
    simp [hessScenarioData, Matrix.mul_apply]
  have h := evaluate_hessian_external_variables_correct hessScenarioData h1
    hsym !![(4 : ℚ)] h2
  refine ⟨h1, hsym, h2, h.1, ?_⟩
  refine (h.2 0).trans ?_
  ext i j
  fin_cases i
  fin_cases j
  simp [hessScenarioData, Matrix.mul_apply]

/-- C6 (counterexample): on the freshly constructed scenario instance,
with no `set_input_values` call ever made, `evaluate_equality_constraints`
does not fail: it returns [3], the residual of f at the
construction-time values (x, y) = (2, 2). -/
theorem evaluate_before_set_input_counterexample :
    ExternalPyomoModel.init [0] [1] [fcon] [gcon] sigma0 = some epm0
    ∧ ExternalPyomoModel.evaluate_equality_constraints epm0 = [3] := by
  constructor
  · rfl
  · show [fcon.body sigma0] = [3]
    norm_num [fcon, sigma0]

/-- C6 (amended): derivative queries issued before any
`set_input_values` call do not fail fast; `__init__` already builds
`self._nlp` (line 102), so `evaluate_equality_constraints` succeeds and
returns the residuals evaluated at the construction-time variable
values — possibly stale data. -/
theorem evaluate_before_set_input_returns_snapshot
    (iv ev : List ℕ) (rc ec : List PyoCon) (σ : ℕ → ℚ)
    (m : ExternalPyomoModel)
    (h : ExternalPyomoModel.init iv ev rc ec σ = some m) :
    ExternalPyomoModel.evaluate_equality_constraints m =
      rc.map fun c => c.body σ := by
  unfold ExternalPyomoModel.init at h
  split at h
  · injection h with h2
    subst h2
    rfl
  · exact Option.noConfusion h

/-- C6 (amended) witness: the amended statement evaluated on the
scenario instance. -/
theorem evaluate_before_set_input_returns_snapshot_witness :
    ExternalPyomoModel.evaluate_equality_constraints epm0 =
      [fcon].map fun c => c.body sigma0 :=
  evaluate_before_set_input_returns_snapshot [0] [1] [fcon] [gcon] sigma0
    epm0 rfl

/-- C7: when the inner solve fails (the solver collaborator, modelled
from the spec, raises on non-convergence), `set_input_values` has no
handler: the error propagates to the caller, the instance is unchanged —
in particular `self._nlp` is not rebuilt, so no partially-updated state
is marked fresh (only the raw input variable values were already
mutated by the zip loop that runs before the solve). -/
theorem set_input_values_propagates_failure (solver : InnerSolver)
    (m : ExternalPyomoModel) (σ : ℕ → ℚ) (vals : List ℚ) (e : PyErr)
    (hassert : (temp_block_input_vars m).length = m.input_vars.length)
    (hfail : solver.solve m.external_cons m.external_vars
      (assign_zip m.input_vars vals σ) = Except.error e) :
    ExternalPyomoModel.set_input_values solver m σ vals =
      (some e, m, assign_zip m.input_vars vals σ) := by
  simp only [ExternalPyomoModel.set_input_values]
  rw [if_pos hassert, hfail]

/-- C7 witness: a solver that reports non-convergence on the scenario
instance; `set_input_values` surfaces the error and leaves the instance
(and its `_nlp` snapshot) unchanged. -/
theorem set_input_values_propagates_failure_witness :
    (temp_block_input_vars epm0).length = epm0.input_vars.length
    ∧ ExternalPyomoModel.set_input_values failSolver epm0 sigma0 [3] =
        (some PyErr.solverError, epm0, assign_zip epm0.input_vars [3] sigma0) := by
  have ha : (temp_block_input_vars epm0).length = epm0.input_vars.length := by
    decide
  exact ⟨ha, set_input_values_propagates_failure failSolver epm0 sigma0 [3]
    PyErr.solverError ha rfl⟩

/-- C8: `get_hessian_of_constraint` builds duals [0, 0], sets the entry
of the real equation to 1 (leaving the dummy equation's multiplier 0,
whichever way the private block orders the two constraints), and returns
the Hessian of the Lagrangian — which therefore reduces to the real
equation's own Hessian — restricted to (wrt1, wrt2), a
|wrt1|-by-|wrt2| block; when both wrt arguments are absent they default
to the unfixed variables appearing in the equation. -/
theorem get_hessian_of_constraint_spec (c : PyoCon)
    (wrt1 wrt2 : Option (List PyoVarDecl)) (rf : Bool) (dummyId : ℕ) :
    get_hessian_of_constraint c wrt1 wrt2 rf dummyId =
      Matrix.of (fun i j => c.hess ((resolve_wrt c wrt1 wrt2).1.get i).id
        ((resolve_wrt c wrt1 wrt2).2.get j).id)
    ∧ (List.set [0, 0] (if rf then 0 else 1) (1 : ℚ)).getD
        (if rf then 0 else 1) 0 = 1
    ∧ (List.set [0, 0] (if rf then 0 else 1) (1 : ℚ)).getD
        (if rf then 1 else 0) 0 = 0
    ∧ resolve_wrt c none none =
        (identify_variables c false, identify_variables c false) := by
  refine ⟨?_, ?_, ?_, rfl⟩
  · cases rf with
    | false =>
      ext i j
      simp [get_hessian_of_constraint, extract_submatrix_hessian_lag]
    | true =>
      ext i j
      simp [get_hessian_of_constraint, extract_submatrix_hessian_lag]
  · cases rf with
    | false => rfl
    | true => rfl
  · cases rf with
    | false => rfl
    | true => rfl

/-- C10: `set_input_values` assigns values to input variables
positionally through `zip`, which never raises on a length mismatch:
the first `len(values)` input variables receive the given values, input
variables beyond `len(values)` keep their previous values, trailing
extra values are ignored (`zip` truncates to the variable list), and the
inner solve then proceeds on this partial assignment, succeeding
normally when the solver does. -/
theorem set_input_values_positional (m : ExternalPyomoModel)
    (σ : ℕ → ℚ) (vals : List ℚ) (hnd : m.input_vars.Nodup) :
    (∀ i (h1 : i < vals.length) (h2 : i < m.input_vars.length),
        assign_zip m.input_vars vals σ (m.input_vars.get ⟨i, h2⟩) =
          vals.get ⟨i, h1⟩)
    ∧ (∀ i (h2 : i < m.input_vars.length), vals.length ≤ i →
        assign_zip m.input_vars vals σ (m.input_vars.get ⟨i, h2⟩) =
          σ (m.input_vars.get ⟨i, h2⟩))
    ∧ assign_zip m.input_vars vals σ =
        assign_zip m.input_vars (vals.take m.input_vars.length) σ
    ∧ ∀ (solver : InnerSolver) (σ2 : ℕ → ℚ),
        (temp_block_input_vars m).length = m.input_vars.length →
        solver.solve m.external_cons m.external_vars
          (assign_zip m.input_vars vals σ) = Except.ok σ2 →
        ExternalPyomoModel.set_input_values solver m σ vals =
          (none, { m with nlpValues := σ2 }, σ2) := by
  refine ⟨fun i h1 h2 => assign_zip_get m.input_vars vals σ hnd i h1 h2,
    fun i h2 h1 => assign_zip_untouched m.input_vars vals σ hnd i h2 h1,
    assign_zip_take m.input_vars vals σ, ?_⟩
  intro solver σ2 ha hs
  simp only [ExternalPyomoModel.set_input_values]
  rw [if_pos ha, hs]

/-- C10 witness: the instance with inputs [0, 5]; with the single value
[7], variable 0 receives 7, variable 5 keeps its previous value, and
the solve proceeds and succeeds; with [7, 8, 9], the trailing 9 is
ignored. -/
theorem set_input_values_positional_witness :
    assign_zip [0, 5] [7] sigma0 0 = 7
    ∧ assign_zip [0, 5] [7] sigma0 5 = sigma0 5
    ∧ assign_zip [0, 5] [7, 8, 9] sigma0 = assign_zip [0, 5] [7, 8] sigma0
    ∧ ExternalPyomoModel.set_input_values okSolver m10 sigma0 [7] =
        (none, { m10 with nlpValues := assign_zip [0, 5] [7] sigma0 },
          assign_zip [0, 5] [7] sigma0) := by
  have h := set_input_values_positional m10 sigma0 [7] (by decide)
  have h3 := set_input_values_positional m10 sigma0 [7, 8, 9] (by decide)
  refine ⟨?_, ?_, ?_, ?_⟩
  · have := h.1 0 (by decide) (by decide)
    simpa [m10] using this
  · have := h.2.1 1 (by decide) (by decide)
    simpa [m10] using this
  · have := h3.2.2.1
    simpa [m10] using this
  · exact h.2.2.2 okSolver (assign_zip [0, 5] [7] sigma0) (by decide) rfl
